import Mathlib

/-!
# Bookly — verification of the booking/calendar backend

Shallow embedding of `backend/app/routers/bookings.py` (together with the
data model of `backend/app/models.py`).

Modelling conventions:
* Calendar dates are represented by their proleptic-Gregorian ordinal
  (`Nat`, Python's `date.toordinal()`: 0001-01-01 ↦ 1); day arithmetic on
  `date` objects becomes `Nat` arithmetic on ordinals.
* The persistent store is a `Store` value: the `customers` and `bookings`
  tables plus the autoincrement counters.  Each endpoint is a function from
  the store (and its request payload) to a result together with the store
  after the request.  `db.commit()` only happens on the success path of each
  endpoint; when an `HTTPException` is raised the session created by
  `get_db`'s `async with` block is closed without a commit, which rolls back
  all uncommitted work (the flush inside `_upsert_customer` included).  The
  `…Tx` wrappers reflect this commit/rollback discipline: the committed
  store after a failing request is the original store.
* Wall-clock timestamps (`created_at`, `updated_at`, `approved_at`,
  `updatedLabel`) are real-time side channels that no claim refers to; they
  are omitted from the record types.  `strftime` renderings of single days
  are injective, so fields holding them (`iso`, `nextAvailableLabel`) are
  modelled by the day ordinal they render.
* The monetary `amount` (a `Decimal` built from the request's float) is kept
  abstract as an optional integer payload that the endpoints pass through
  untouched.
-/

/-- `models.BookingStatus`. -/
inductive BookingStatus where
  | pending
  | approved
  | declined
  | cancelled
deriving DecidableEq, Repr

/-- A row of the `customers` table (timestamps omitted, see header). -/
structure Customer where
  id : Nat
  email : String
  fullName : String
deriving DecidableEq, Repr

/-- A row of the `bookings` table (timestamps omitted, see header). -/
structure Booking where
  id : Nat
  customerId : Nat
  resourceId : String
  status : BookingStatus
  startAt : Nat
  endAt : Nat
  requestedBy : String
  approvedBy : Option String
  notes : Option String
  amount : Option Int
deriving DecidableEq, Repr

/-- The relational store: both tables plus the autoincrement counters. -/
structure Store where
  customers : List Customer
  bookings : List Booking
  nextCustomerId : Nat
  nextBookingId : Nat
deriving DecidableEq, Repr

def emptyStore : Store := ⟨[], [], 1, 1⟩

/-- Errors surfaced by the endpoints (`HTTPException` by status code). -/
inductive ApiError where
  | validation (msg : String)
  | conflict (msg : String)
  | notFound (msg : String)
deriving DecidableEq, Repr

deriving instance DecidableEq for Except

/-- `schemas.BookingCreate` (the `POST /api/bookings` payload). -/
structure BookingCreate where
  email : String
  fullName : String
  startAt : Nat
  endAt : Nat
  requestedBy : String
  notes : Option String
  resourceId : String
  amount : Option Int
deriving Repr

/-- `schemas.BookingDecision` (approve/decline payload). -/
structure BookingDecision where
  actor : String
  note : Option String
deriving Repr

/-- Python's `str.lower()` (character-wise lowercasing of the email). -/
def lowerString (s : String) : String := ⟨s.data.map Char.toLower⟩

/-- `_upsert_customer`: find the customer by lower-cased email; update the
name in place when found, insert a fresh row otherwise.  Returns the
customer together with the session state after the flush. -/
def upsertCustomer (st : Store) (email fullName : String) : Customer × Store :=
  let normalized := lowerString email
  match st.customers.find? (fun c => c.email = normalized) with
  | some c =>
      let c' : Customer := { c with fullName := fullName }
      ⟨c', { st with customers := st.customers.map (fun x => if x.id = c.id then c' else x) }⟩
  | none =>
      let c : Customer := { id := st.nextCustomerId, email := normalized, fullName := fullName }
      ⟨c, { st with customers := st.customers ++ [c],
                    nextCustomerId := st.nextCustomerId + 1 }⟩

/-- The query inside `_ensure_no_conflict`: is there a booking for this
resource, with status `approved`, whose inclusive `[start_at, end_at]`
interval meets `[startAt, endAt]`, and (when given) whose id differs from
`excludeBookingId`? -/
def hasConflict (bookings : List Booking) (resourceId : String)
    (startAt endAt : Nat) (excludeBookingId : Option Nat) : Bool :=
  bookings.any fun b =>
    decide (b.resourceId = resourceId) && decide (b.status = BookingStatus.approved) &&
    decide (startAt ≤ b.endAt) && decide (b.startAt ≤ endAt) &&
    (match excludeBookingId with
     | none => true
     | some i => decide (b.id ≠ i))

/-- `create_booking`: validate the date order, upsert the customer, run the
conflict check, then insert the pending booking.  The returned store is the
session state that `db.commit()` makes durable. -/
def createBooking (st : Store) (p : BookingCreate) : Except ApiError (Booking × Store) :=
  if p.endAt < p.startAt then
    .error (.validation "End date must be on or after start date")
  else
    let cs := upsertCustomer st p.email p.fullName
    if hasConflict cs.2.bookings p.resourceId p.startAt p.endAt none then
      .error (.conflict "Booking overlaps an approved reservation")
    else
      let b : Booking :=
        { id := cs.2.nextBookingId
          customerId := cs.1.id
          resourceId := p.resourceId
          status := .pending
          startAt := p.startAt
          endAt := p.endAt
          requestedBy := p.requestedBy
          approvedBy := none
          notes := p.notes
          amount := p.amount }
      .ok ⟨b, { cs.2 with bookings := cs.2.bookings ++ [b],
                          nextBookingId := cs.2.nextBookingId + 1 }⟩

/-- `_get_booking` without the 404 (the lookup itself). -/
def getBooking (st : Store) (bookingId : Nat) : Option Booking :=
  st.bookings.find? (fun b => b.id = bookingId)

/-- The decision-note line shared by approve and decline:
`booking.notes = f"{booking.notes}\nDecision: {payload.note}" if booking.notes else payload.note`,
guarded by `if payload.note:` (Python truthiness: `None` and `""` are falsy). -/
def applyDecisionNote (notes : Option String) (note : Option String) : Option String :=
  match note with
  | none => notes
  | some n =>
      if n = "" then notes
      else
        match notes with
        | some s => if s = "" then some n else some (s ++ "\n" ++ "Decision: " ++ n)
        | none => some n

/-- Replace the row with this booking's id (the ORM identity-map update). -/
def updateBooking (st : Store) (b : Booking) : Store :=
  { st with bookings := st.bookings.map (fun x => if x.id = b.id then b else x) }

/-- `approve_booking`: load, require `pending`, re-run the conflict check
excluding the booking itself, then flip the status and record the actor. -/
def approveBooking (st : Store) (bookingId : Nat) (p : BookingDecision) :
    Except ApiError (Booking × Store) :=
  match getBooking st bookingId with
  | none => .error (.notFound "Booking not found")
  | some booking =>
      if booking.status ≠ BookingStatus.pending then
        .error (.conflict "Only pending bookings can be approved")
      else if hasConflict st.bookings booking.resourceId booking.startAt booking.endAt
          (some booking.id) then
        .error (.conflict "Booking overlaps an approved reservation")
      else
        let b' : Booking :=
          { booking with
              status := .approved
              approvedBy := some p.actor
              notes := applyDecisionNote booking.notes p.note }
        .ok ⟨b', updateBooking st b'⟩

/-- `decline_booking`: same preconditions minus the conflict check. -/
def declineBooking (st : Store) (bookingId : Nat) (p : BookingDecision) :
    Except ApiError (Booking × Store) :=
  match getBooking st bookingId with
  | none => .error (.notFound "Booking not found")
  | some booking =>
      if booking.status ≠ BookingStatus.pending then
        .error (.conflict "Only pending bookings can be declined")
      else
        let b' : Booking :=
          { booking with
              status := .declined
              approvedBy := some p.actor
              notes := applyDecisionNote booking.notes p.note }
        .ok ⟨b', updateBooking st b'⟩

/-- The create endpoint with its transaction boundary: on any raised error
the session rolls back, so the committed store is the caller's store. -/
def createBookingTx (st : Store) (p : BookingCreate) : Except ApiError Booking × Store :=
  match createBooking st p with
  | .error e => ⟨.error e, st⟩
  | .ok bs => ⟨.ok bs.1, bs.2⟩

/-- The approve endpoint with its transaction boundary. -/
def approveBookingTx (st : Store) (bookingId : Nat) (p : BookingDecision) :
    Except ApiError Booking × Store :=
  match approveBooking st bookingId p with
  | .error e => ⟨.error e, st⟩
  | .ok bs => ⟨.ok bs.1, bs.2⟩

/-- The decline endpoint with its transaction boundary. -/
def declineBookingTx (st : Store) (bookingId : Nat) (p : BookingDecision) :
    Except ApiError Booking × Store :=
  match declineBooking st bookingId p with
  | .error e => ⟨.error e, st⟩
  | .ok bs => ⟨.ok bs.1, bs.2⟩

/-- States reachable from the empty store by the mutating endpoints.
Failing calls leave the committed store unchanged, so only the success
cases produce new states. -/
inductive Reachable : Store → Prop where
  | empty : Reachable emptyStore
  | create (st : Store) (p : BookingCreate) (b : Booking) (st' : Store) :
      Reachable st → createBooking st p = .ok ⟨b, st'⟩ → Reachable st'
  | approve (st : Store) (bookingId : Nat) (p : BookingDecision) (b : Booking) (st' : Store) :
      Reachable st → approveBooking st bookingId p = .ok ⟨b, st'⟩ → Reachable st'
  | decline (st : Store) (bookingId : Nat) (p : BookingDecision) (b : Booking) (st' : Store) :
      Reachable st → declineBooking st bookingId p = .ok ⟨b, st'⟩ → Reachable st'

/-! ## Proleptic Gregorian dates as ordinals (Python's `date.toordinal`) -/

/-- Gregorian leap-year test. -/
def isLeapYear (y : Nat) : Bool := (y % 4 = 0 ∧ y % 100 ≠ 0) ∨ y % 400 = 0

/-- `calendar.monthrange(y, m)[1]`: number of days in the month. -/
def daysInMonth (y m : Nat) : Nat :=
  if m = 2 then (if isLeapYear y then 29 else 28)
  else if m = 4 ∨ m = 6 ∨ m = 9 ∨ m = 11 then 30
  else 31

/-- Days in all years strictly before year `y` (year 1 is the first year). -/
def daysBeforeYear (y : Nat) : Nat :=
  (y - 1) * 365 + (y - 1) / 4 - (y - 1) / 100 + (y - 1) / 400

/-- Days in the months of year `y` strictly before month `m`. -/
def daysBeforeMonth (y m : Nat) : Nat :=
  (List.range (m - 1)).foldl (fun acc i => acc + daysInMonth y (i + 1)) 0

/-- `date(y, m, d).toordinal()`: 0001-01-01 ↦ 1. -/
def toOrdinal (y m d : Nat) : Nat := daysBeforeYear y + daysBeforeMonth y m + d

/-- `date.weekday()` on an ordinal: Monday ↦ 0 … Sunday ↦ 6. -/
def weekdayOf (o : Nat) : Nat := (o + 6) % 7

/-! ## `Calendar(firstweekday=0).monthdatescalendar` -/

/-- Ordinal of the Monday on or before the 1st of the month — the first
grid cell (`days_before = (day1 - firstweekday) % 7` in
`calendar.Calendar.itermonthdays`, with `firstweekday = 0`). -/
def gridStartOrd (y m : Nat) : Nat := toOrdinal y m 1 - weekdayOf (toOrdinal y m 1)

/-- Number of cells in the grid: the month padded on both sides to whole
weeks (`days_before + ndays + days_after` in CPython's `calendar`). -/
def gridLen (y m : Nat) : Nat :=
  weekdayOf (toOrdinal y m 1) + daysInMonth y m +
    (7 - (weekdayOf (toOrdinal y m 1) + daysInMonth y m) % 7) % 7

/-- Ordinal of the last grid cell (the Sunday on or after month end);
`weeks_dates[-1][-1]` in `_build_calendar`. -/
def gridEndOrd (y m : Nat) : Nat := gridStartOrd y m + gridLen y m - 1

/-- Slice a list into rows of seven
(`[dates[i:i+7] for i in range(0, len(dates), 7)]`). -/
def chunk7Fuel : Nat → List α → List (List α)
  | _, [] => []
  | 0, l => [l]
  | fuel + 1, x :: xs => ((x :: xs).take 7) :: chunk7Fuel fuel ((x :: xs).drop 7)

def chunk7 (l : List α) : List (List α) := chunk7Fuel l.length l

/-- `Calendar(firstweekday=0).monthdatescalendar(y, m)`: the consecutive
dates from the Monday on/before the 1st through the Sunday on/after the
last day of the month, sliced into 7-day rows. -/
def monthdatescalendar (y m : Nat) : List (List Nat) :=
  chunk7 (List.range' (gridStartOrd y m) (gridLen y m))

/-- `_daterange(a, b)` collected into a list: `a, a+1, …, b` (empty when
`a > b`). -/
def daterangeList (a b : Nat) : List Nat := List.range' a (b + 1 - a)

/-! ## Calendar builder (`_build_calendar` / `_build_day_detail`) -/

/-- The bucket `bookings_by_day[day]`: each booking's span is clipped to
the grid bounds and the booking is assigned to every day of the clipped
span; for a fixed day this is the in-order sublist of bookings whose
clipped span contains the day. -/
def bookingsOnDay (bookings : List Booking) (gs ge day : Nat) : List Booking :=
  bookings.filter fun b => decide (max b.startAt gs ≤ day ∧ day ≤ min b.endAt ge)

def approvedCountOn (bookings : List Booking) (gs ge day : Nat) : Nat :=
  (bookingsOnDay bookings gs ge day).countP fun b => decide (b.status = BookingStatus.approved)

def pendingCountOn (bookings : List Booking) (gs ge day : Nat) : Nat :=
  (bookingsOnDay bookings gs ge day).countP fun b => decide (b.status = BookingStatus.pending)

/-- `CAPACITY_PER_DAY` -/
def CAPACITY_PER_DAY : Int := 1

/-- The per-day summary paragraph of `_build_day_detail`. -/
def dayDetailSummary (approvedCount : Nat) (bookings : List Booking) : String :=
  if (approvedCount : Int) ≥ CAPACITY_PER_DAY then
    "All slots are filled. Decline or reschedule requests to reopen capacity."
  else if bookings ≠ [] then
    "Review guest details, confirm approvals, or release slots as needed."
  else
    "Wide open day ready for a new booking."

/-- `schemas.CalendarDayDetail` (labels modelled by the day ordinal). -/
structure CalendarDayDetail where
  day : Nat
  summary : String
  confirmedCount : Nat
  pendingCount : Nat
  remainingSlots : Int
  bookings : List Booking
deriving Repr, DecidableEq

/-- `_build_day_detail day bookings`. -/
def buildDayDetail (day : Nat) (bookings : List Booking) : CalendarDayDetail :=
  let approvedCount := bookings.countP fun b => decide (b.status = BookingStatus.approved)
  let pendingCount := bookings.countP fun b => decide (b.status = BookingStatus.pending)
  let remainingSlots : Int := max 0 (CAPACITY_PER_DAY - (approvedCount : Int))
  { day := day
    summary := dayDetailSummary approvedCount bookings
    confirmedCount := approvedCount
    pendingCount := pendingCount
    remainingSlots := remainingSlots
    bookings := bookings.insertionSort fun a b => a.startAt < b.startAt ∨ (a.startAt = b.startAt ∧ a.id ≤ b.id) }

/-- One cell of the `weeks` grid (`schemas.CalendarDay`; `iso`/`dayLabel`
are injective renderings of `day`). -/
structure CalendarDayCell where
  day : Nat
  isCurrentMonth : Bool
  isToday : Bool
  isFull : Bool
  pendingCount : Nat
  remainingSlots : Int
  bookings : List Booking
deriving Repr, DecidableEq

/-- `schemas.CalendarMonth` + response envelope, label fields modelled by
the values they render. -/
structure CalendarView where
  gridStart : Nat
  gridEnd : Nat
  totalBookings : Nat
  totalPending : Nat
  totalRemaining : Int
  nextAvailable : Option Nat
  weeks : List (List CalendarDayCell)
  selectedDay : Nat
  selectedDetail : CalendarDayDetail
  pendingRequests : List Booking
deriving Repr

/-- A day of the grid belongs to the anchor month
(`day_value.month == anchor.month` in the source; within a month grid the
only days whose month number equals the anchor's are the anchor month's own
days, so this is the ordinal-interval test). -/
def inAnchorMonth (y m day : Nat) : Bool :=
  decide (toOrdinal y m 1 ≤ day ∧ day ≤ toOrdinal y m (daysInMonth y m))

/-- One cell of the inner loop of `_build_calendar`: the per-day aggregates
over `bookings_by_day[day]`. -/
def buildCalendarCell (y m : Nat) (bookings : List Booking) (today day : Nat) :
    CalendarDayCell :=
  { day := day
    isCurrentMonth := inAnchorMonth y m day
    isToday := decide (day = today)
    isFull := decide ((approvedCountOn bookings (gridStartOrd y m) (gridEndOrd y m) day : Int) ≥
      CAPACITY_PER_DAY)
    pendingCount := pendingCountOn bookings (gridStartOrd y m) (gridEndOrd y m) day
    remainingSlots := max 0 (CAPACITY_PER_DAY -
      (approvedCountOn bookings (gridStartOrd y m) (gridEndOrd y m) day : Int))
    bookings := (bookingsOnDay bookings (gridStartOrd y m) (gridEndOrd y m) day).insertionSort
      fun a b => a.startAt < b.startAt ∨ (a.startAt = b.startAt ∧ a.id ≤ b.id) }

/-- The next-available scan of `_build_calendar`: walk `_daterange(max(today,
grid_start), grid_end)` and stop at the first day with `approved_count <
CAPACITY_PER_DAY`. -/
def nextAvailableDay (y m : Nat) (bookings : List Booking) (today : Nat) : Option Nat :=
  (daterangeList (max today (gridStartOrd y m)) (gridEndOrd y m)).find? fun d =>
    decide ((approvedCountOn bookings (gridStartOrd y m) (gridEndOrd y m) d : Int) <
      CAPACITY_PER_DAY)

/-- `_build_calendar` (anchor given as year/month; `today` is a parameter
where the source reads the wall clock). -/
def buildCalendar (y m : Nat) (bookings : List Booking)
    (selectedDate : Option Nat) (today : Nat) : CalendarView :=
  let gs := gridStartOrd y m
  let ge := gridEndOrd y m
  let monthStart := toOrdinal y m 1
  let monthEnd := toOrdinal y m (daysInMonth y m)
  let totalBookings :=
    ((bookings.filter fun b =>
        decide ((b.status = BookingStatus.pending ∨ b.status = BookingStatus.approved) ∧
          b.startAt ≤ monthEnd ∧ monthStart ≤ b.endAt)).map Booking.id).dedup.length
  let totalPending :=
    ((bookings.filter fun b =>
        decide (b.status = BookingStatus.pending ∧
          b.startAt ≤ monthEnd ∧ monthStart ≤ b.endAt)).map Booking.id).dedup.length
  let weeks := (monthdatescalendar y m).map fun week =>
    week.map (buildCalendarCell y m bookings today)
  let totalRemaining :=
    ((monthdatescalendar y m).flatten.filter fun d => inAnchorMonth y m d).foldl
      (fun acc d => acc + max 0 (CAPACITY_PER_DAY - (approvedCountOn bookings gs ge d : Int))) 0
  let selected0 :=
    match selectedDate with
    | some s => s
    | none => if inAnchorMonth y m today then today else monthStart
  let selected := if selected0 < gs ∨ ge < selected0 then monthStart else selected0
  { gridStart := gs
    gridEnd := ge
    totalBookings := totalBookings
    totalPending := totalPending
    totalRemaining := totalRemaining
    nextAvailable := nextAvailableDay y m bookings today
    weeks := weeks
    selectedDay := selected
    selectedDetail := buildDayDetail selected (bookingsOnDay bookings gs ge selected)
    pendingRequests :=
      (bookings.filter fun b => decide (b.status = BookingStatus.pending)).insertionSort
        fun a b => a.startAt < b.startAt ∨ (a.startAt = b.startAt ∧ a.id ≤ b.id) }

/-- `GET /api/calendar/day`: fetch the overlapping bookings for the single
day and build the detail (`day_bookings` re-filters by actual span). -/
def getCalendarDay (st : Store) (resourceId : String) (dateValue : Nat) : CalendarDayDetail :=
  let fetched := st.bookings.filter fun b =>
    decide (b.resourceId = resourceId ∧ dateValue ≤ b.endAt ∧ b.startAt ≤ dateValue)
  buildDayDetail dateValue
    (fetched.filter fun b => decide (b.startAt ≤ dateValue ∧ dateValue ≤ b.endAt))

/-! ## A concrete run of the spec's walkthrough scenario -/

/-- Alice requests 2025-06-10 .. 2025-06-12 (spec §8 scenario). -/
def pA : BookingCreate :=
  { email := "Alice@Example.com", fullName := "Alice", startAt := toOrdinal 2025 6 10,
    endAt := toOrdinal 2025 6 12, requestedBy := "Alice", notes := none,
    resourceId := "alder-lake-house", amount := none }

/-- Bob requests the single day 2025-06-11. -/
def pB : BookingCreate :=
  { email := "bob@example.com", fullName := "Bob", startAt := toOrdinal 2025 6 11,
    endAt := toOrdinal 2025 6 11, requestedBy := "Bob", notes := none,
    resourceId := "alder-lake-house", amount := none }

/-- The owner's decision payload without a note. -/
def decOwner : BookingDecision := { actor := "Owner", note := none }

/-- The owner's decision payload with the note `"ok"`. -/
def decNote : BookingDecision := { actor := "Owner", note := some "ok" }

/-- Alice's booking as created (pending). -/
def bA : Booking :=
  { id := 1, customerId := 1, resourceId := "alder-lake-house", status := .pending,
    startAt := 739412, endAt := 739414, requestedBy := "Alice", approvedBy := none,
    notes := none, amount := none }

/-- The store after creating Alice's booking from the empty store. -/
def st1 : Store :=
  { customers := [{ id := 1, email := "alice@example.com", fullName := "Alice" }],
    bookings := [bA], nextCustomerId := 2, nextBookingId := 2 }

/-- Alice's booking once approved by the owner. -/
def bA2 : Booking :=
  { bA with status := .approved, approvedBy := some "Owner" }

/-- The store after the approval. -/
def st2 : Store :=
  { st1 with bookings := [bA2] }

/-- Alice's booking approved with the decision note `"ok"` attached. -/
def bA3 : Booking :=
  { bA with status := .approved, approvedBy := some "Owner", notes := some "ok" }

/-- The store after approving with the note. -/
def st3 : Store :=
  { st1 with bookings := [bA3] }

/-- A validation-failure payload: 2025-07-05 .. 2025-07-01 (spec §8). -/
def pBad : BookingCreate :=
  { email := "carol@example.com", fullName := "Carol", startAt := toOrdinal 2025 7 5,
    endAt := toOrdinal 2025 7 1, requestedBy := "Carol", notes := none,
    resourceId := "alder-lake-house", amount := none }

/-! ## Well-formedness invariants of the store -/

/-- No two distinct approved bookings of the same resource have overlapping
(inclusive) date ranges. -/
def NoOverlap (l : List Booking) : Prop :=
  ∀ b1 ∈ l, ∀ b2 ∈ l, b1.id ≠ b2.id → b1.status = BookingStatus.approved →
    b2.status = BookingStatus.approved → b1.resourceId = b2.resourceId →
    ¬(b1.startAt ≤ b2.endAt ∧ b2.startAt ≤ b1.endAt)

/-- Invariants maintained by every mutating endpoint. -/
structure WF (st : Store) : Prop where
  idsLt : ∀ b ∈ st.bookings, b.id < st.nextBookingId
  idsNodup : (st.bookings.map Booking.id).Nodup
  dates : ∀ b ∈ st.bookings, b.startAt ≤ b.endAt
  noOverlap : NoOverlap st.bookings

/-! ## Basic facts about the lifecycle operations -/

theorem hasConflict_iff (l : List Booking) (r : String) (s e : Nat) (excl : Option Nat) :
    hasConflict l r s e excl = true ↔
      ∃ b ∈ l, b.resourceId = r ∧ b.status = BookingStatus.approved ∧
        s ≤ b.endAt ∧ b.startAt ≤ e ∧ ∀ i, excl = some i → b.id ≠ i := by
  cases excl with
  | none =>
      simp [hasConflict, List.any_eq_true, and_assoc]
  | some j =>
      simp [hasConflict, List.any_eq_true, and_assoc]

theorem upsertCustomer_bookings (st : Store) (e f : String) :
    (upsertCustomer st e f).2.bookings = st.bookings ∧
    (upsertCustomer st e f).2.nextBookingId = st.nextBookingId := by
  rcases hf : st.customers.find? (fun c => c.email = lowerString e) with _ | c <;>
    simp [upsertCustomer, hf]

theorem createBooking_ok {st : Store} {p : BookingCreate} {b : Booking} {st' : Store}
    (h : createBooking st p = .ok ⟨b, st'⟩) :
    p.startAt ≤ p.endAt ∧
    hasConflict st.bookings p.resourceId p.startAt p.endAt none = false ∧
    b.id = st.nextBookingId ∧ b.status = BookingStatus.pending ∧
    b.startAt = p.startAt ∧ b.endAt = p.endAt ∧
    st'.bookings = st.bookings ++ [b] ∧
    st'.nextBookingId = st.nextBookingId + 1 := by
  obtain ⟨hub, hun⟩ := upsertCustomer_bookings st p.email p.fullName
  simp only [createBooking] at h
  split at h
  · exact absurd h (by simp)
  · split at h
    · exact absurd h (by simp)
    · rename_i hv hc
      rw [Except.ok.injEq, Prod.mk.injEq] at h
      obtain ⟨hb, hst⟩ := h
      subst hb
      subst hst
      rw [Bool.not_eq_true] at hc
      rw [hub] at hc
      refine ⟨by omega, hc, by simp [hun], rfl, rfl, rfl, by simp [hub], by simp [hun]⟩

theorem approveBooking_ok {st : Store} {bookingId : Nat} {p : BookingDecision}
    {b' : Booking} {st' : Store}
    (h : approveBooking st bookingId p = .ok ⟨b', st'⟩) :
    ∃ b, getBooking st bookingId = some b ∧ b.status = BookingStatus.pending ∧
      hasConflict st.bookings b.resourceId b.startAt b.endAt (some b.id) = false ∧
      b' = { b with
          status := BookingStatus.approved
          approvedBy := some p.actor
          notes := applyDecisionNote b.notes p.note } ∧
      st' = updateBooking st b' := by
  rcases hg : getBooking st bookingId with _ | b
  · simp [approveBooking, hg] at h
  · simp only [approveBooking, hg] at h
    split at h
    · exact absurd h (by simp)
    · split at h
      · exact absurd h (by simp)
      · rename_i hs hc
        rw [Except.ok.injEq, Prod.mk.injEq] at h
        obtain ⟨hb, hst⟩ := h
        rw [not_not] at hs
        rw [Bool.not_eq_true] at hc
        exact ⟨b, rfl, hs, hc, hb.symm, by rw [← hst, hb]⟩

theorem declineBooking_ok {st : Store} {bookingId : Nat} {p : BookingDecision}
    {b' : Booking} {st' : Store}
    (h : declineBooking st bookingId p = .ok ⟨b', st'⟩) :
    ∃ b, getBooking st bookingId = some b ∧ b.status = BookingStatus.pending ∧
      b' = { b with
          status := BookingStatus.declined
          approvedBy := some p.actor
          notes := applyDecisionNote b.notes p.note } ∧
      st' = updateBooking st b' := by
  rcases hg : getBooking st bookingId with _ | b
  · simp [declineBooking, hg] at h
  · simp only [declineBooking, hg] at h
    split at h
    · exact absurd h (by simp)
    · rename_i hs
      rw [Except.ok.injEq, Prod.mk.injEq] at h
      obtain ⟨hb, hst⟩ := h
      rw [not_not] at hs
      exact ⟨b, rfl, hs, hb.symm, by rw [← hst, hb]⟩

theorem approveBookingTx_ok {st : Store} {bookingId : Nat} {p : BookingDecision}
    {b' : Booking} {st' : Store}
    (h : approveBookingTx st bookingId p = ⟨.ok b', st'⟩) :
    approveBooking st bookingId p = .ok ⟨b', st'⟩ := by
  unfold approveBookingTx at h
  rcases ha : approveBooking st bookingId p with e | bs <;> rw [ha] at h
  · simp at h
  · obtain ⟨b0, s0⟩ := bs
    simp only [Prod.mk.injEq, Except.ok.injEq] at h
    obtain ⟨h1, h2⟩ := h
    rw [h1, h2]

theorem declineBookingTx_ok {st : Store} {bookingId : Nat} {p : BookingDecision}
    {b' : Booking} {st' : Store}
    (h : declineBookingTx st bookingId p = ⟨.ok b', st'⟩) :
    declineBooking st bookingId p = .ok ⟨b', st'⟩ := by
  unfold declineBookingTx at h
  rcases ha : declineBooking st bookingId p with e | bs <;> rw [ha] at h
  · simp at h
  · obtain ⟨b0, s0⟩ := bs
    simp only [Prod.mk.injEq, Except.ok.injEq] at h
    obtain ⟨h1, h2⟩ := h
    rw [h1, h2]
theorem getBooking_mem {st : Store} {i : Nat} {b : Booking}
    (h : getBooking st i = some b) : b ∈ st.bookings ∧ b.id = i := by
  unfold getBooking at h
  have hm := List.mem_of_find?_eq_some h
  have hp := List.find?_some h
  simp at hp
  exact ⟨hm, hp⟩

theorem hasConflict_false_no_witness {l : List Booking} {r : String} {s e j : Nat}
    (hc : hasConflict l r s e (some j) = false) :
    ∀ b ∈ l, b.resourceId = r → b.status = BookingStatus.approved →
      s ≤ b.endAt → b.startAt ≤ e → b.id = j := by
  intro b hb h1 h2 h3 h4
  by_contra hne
  have ht : hasConflict l r s e (some j) = true :=
    (hasConflict_iff l r s e (some j)).2
      ⟨b, hb, h1, h2, h3, h4, fun i hi => by injection hi with hi; rw [← hi]; exact hne⟩
  rw [hc] at ht
  cases ht

theorem updateBooking_map_id (st : Store) (b' : Booking) :
    (updateBooking st b').bookings.map Booking.id = st.bookings.map Booking.id := by
  unfold updateBooking
  simp only [List.map_map]
  apply List.map_congr_left
  intro x _
  by_cases hcase : x.id = b'.id <;> simp [hcase]

theorem updateBooking_mem {st : Store} {b' : Booking} {y : Booking}
    (hy : y ∈ (updateBooking st b').bookings) :
    y = b' ∨ (y ∈ st.bookings ∧ y.id ≠ b'.id) := by
  unfold updateBooking at hy
  simp only [List.mem_map] at hy
  obtain ⟨x, hx, hfx⟩ := hy
  by_cases hcase : x.id = b'.id
  · left
    rw [← hfx]
    simp [hcase]
  · right
    rw [← hfx]
    simp only [if_neg hcase]
    exact ⟨hx, hcase⟩

theorem wf_create {st : Store} {p : BookingCreate} {b : Booking} {st' : Store}
    (hwf : WF st) (h : createBooking st p = .ok ⟨b, st'⟩) : WF st' := by
  obtain ⟨hv, hc, hid, hstatus, hs, he, hbk, hnx⟩ := createBooking_ok h
  refine ⟨?_, ?_, ?_, ?_⟩
  · intro x hx
    rw [hbk] at hx
    rw [hnx]
    rcases List.mem_append.1 hx with hx | hx
    · exact Nat.lt_succ_of_lt (hwf.idsLt x hx)
    · simp at hx
      subst hx
      omega
  · rw [hbk, List.map_append]
    rw [List.nodup_append]
    refine ⟨hwf.idsNodup, by simp, ?_⟩
    intro a ha hb2
    simp at hb2
    obtain ⟨x, hx, hxid⟩ := List.mem_map.1 ha
    have := hwf.idsLt x hx
    omega
  · intro x hx
    rw [hbk] at hx
    rcases List.mem_append.1 hx with hx | hx
    · exact hwf.dates x hx
    · simp at hx
      subst hx
      omega
  · intro b1 hb1 b2 hb2 hne ha1 ha2 hr
    rw [hbk] at hb1 hb2
    rcases List.mem_append.1 hb1 with hb1 | hb1 <;> rcases List.mem_append.1 hb2 with hb2 | hb2
    · exact hwf.noOverlap b1 hb1 b2 hb2 hne ha1 ha2 hr
    · simp at hb2
      subst hb2
      rw [hstatus] at ha2
      cases ha2
    · simp at hb1
      subst hb1
      rw [hstatus] at ha1
      cases ha1
    · simp at hb1 hb2
      subst hb1
      subst hb2
      exact absurd rfl hne
theorem wf_approve {st : Store} {bookingId : Nat} {p : BookingDecision}
    {b' : Booking} {st' : Store}
    (hwf : WF st) (h : approveBooking st bookingId p = .ok ⟨b', st'⟩) : WF st' := by
  obtain ⟨b, hg, hpend, hc, hb', hst'⟩ := approveBooking_ok h
  obtain ⟨hbm, hbid⟩ := getBooking_mem hg
  have hbres : b'.resourceId = b.resourceId := by rw [hb']
  have hbst : b'.startAt = b.startAt := by rw [hb']
  have hben : b'.endAt = b.endAt := by rw [hb']
  have hbid' : b'.id = b.id := by rw [hb']
  subst hst'
  refine ⟨?_, ?_, ?_, ?_⟩
  · intro y hy
    show y.id < st.nextBookingId
    rcases updateBooking_mem hy with rfl | ⟨hy', _⟩
    · rw [hbid']
      exact hwf.idsLt b hbm
    · exact hwf.idsLt y hy'
  · rw [updateBooking_map_id]
    exact hwf.idsNodup
  · intro y hy
    rcases updateBooking_mem hy with rfl | ⟨hy', _⟩
    · rw [hbst, hben]
      exact hwf.dates b hbm
    · exact hwf.dates y hy'
  · intro b1 hb1 b2 hb2 hne ha1 ha2 hr hov
    rcases updateBooking_mem hb1 with rfl | ⟨h1m, h1id⟩ <;>
      rcases updateBooking_mem hb2 with rfl | ⟨h2m, h2id⟩
    · exact hne rfl
    · have h2 : b2.id = b.id := by
        refine hasConflict_false_no_witness hc b2 h2m ?_ ha2 ?_ ?_
        · rw [← hr, hbres]
        · rw [← hbst]
          exact hov.1
        · rw [← hben]
          exact hov.2
      rw [← hbid'] at h2
      exact h2id h2
    · have h1 : b1.id = b.id := by
        refine hasConflict_false_no_witness hc b1 h1m ?_ ha1 ?_ ?_
        · rw [hr, hbres]
        · rw [← hbst]
          exact hov.2
        · rw [← hben]
          exact hov.1
      rw [← hbid'] at h1
      exact h1id h1
    · exact hwf.noOverlap b1 h1m b2 h2m hne ha1 ha2 hr hov

theorem wf_decline {st : Store} {bookingId : Nat} {p : BookingDecision}
    {b' : Booking} {st' : Store}
    (hwf : WF st) (h : declineBooking st bookingId p = .ok ⟨b', st'⟩) : WF st' := by
  obtain ⟨b, hg, hpend, hb', hst'⟩ := declineBooking_ok h
  obtain ⟨hbm, hbid⟩ := getBooking_mem hg
  have hbst : b'.startAt = b.startAt := by rw [hb']
  have hben : b'.endAt = b.endAt := by rw [hb']
  have hbid' : b'.id = b.id := by rw [hb']
  have hbdecl : b'.status = BookingStatus.declined := by rw [hb']
  subst hst'
  refine ⟨?_, ?_, ?_, ?_⟩
  · intro y hy
    show y.id < st.nextBookingId
    rcases updateBooking_mem hy with rfl | ⟨hy', _⟩
    · rw [hbid']
      exact hwf.idsLt b hbm
    · exact hwf.idsLt y hy'
  · rw [updateBooking_map_id]
    exact hwf.idsNodup
  · intro y hy
    rcases updateBooking_mem hy with rfl | ⟨hy', _⟩
    · rw [hbst, hben]
      exact hwf.dates b hbm
    · exact hwf.dates y hy'
  · intro b1 hb1 b2 hb2 hne ha1 ha2 hr hov
    rcases updateBooking_mem hb1 with rfl | ⟨h1m, h1id⟩ <;>
      rcases updateBooking_mem hb2 with rfl | ⟨h2m, h2id⟩
    · exact hne rfl
    · rw [hbdecl] at ha1
      cases ha1
    · rw [hbdecl] at ha2
      cases ha2
    · exact hwf.noOverlap b1 h1m b2 h2m hne ha1 ha2 hr hov

theorem wf_reachable {st : Store} (h : Reachable st) : WF st := by
  induction h with
  | empty =>
      refine ⟨?_, ?_, ?_, ?_⟩ <;> simp [emptyStore, NoOverlap]
  | create st p b st' _ hok ih => exact wf_create ih hok
  | approve st bookingId p b st' _ hok ih => exact wf_approve ih hok
  | decline st bookingId p b st' _ hok ih => exact wf_decline ih hok

theorem reachable_st2 : Reachable st2 :=
  Reachable.approve st1 1 decOwner bA2 st2
    (Reachable.create emptyStore pA bA st1 Reachable.empty (by decide)) (by decide)

/-! ## Claims about the booking lifecycle -/

/-- C1: in every state reachable from the empty store by create, approve and
decline, for every resource and every day at most one approved booking's
inclusive date range contains that day (capacity 1 per day per resource). -/
theorem C1_capacity_one_per_day (st : Store) (h : Reachable st) (r : String) (d : Nat) :
    (st.bookings.countP fun b =>
      decide (b.resourceId = r ∧ b.status = BookingStatus.approved ∧
        b.startAt ≤ d ∧ d ≤ b.endAt)) ≤ 1 := by
  have hwf := wf_reachable h
  set pred : Booking → Bool := fun b =>
    decide (b.resourceId = r ∧ b.status = BookingStatus.approved ∧
      b.startAt ≤ d ∧ d ≤ b.endAt) with hpred
  rw [List.countP_eq_length_filter]
  by_contra hcon
  push_neg at hcon
  cases hfl : st.bookings.filter pred with
  | nil =>
      rw [hfl] at hcon
      simp at hcon
  | cons x tl =>
      cases tl with
      | nil =>
          rw [hfl] at hcon
          simp at hcon
      | cons y t =>
          have hsub := List.filter_sublist (p := pred) st.bookings
          have hnd : ((st.bookings.filter pred).map Booking.id).Nodup :=
            hwf.idsNodup.sublist (hsub.map Booking.id)
          rw [hfl] at hnd
          simp only [List.map_cons] at hnd
          have hxy : x.id ≠ y.id := by
            intro hh
            apply (List.nodup_cons.1 hnd).1
            rw [hh]
            exact List.mem_cons_self _ _
          have hinx : x ∈ st.bookings.filter pred := by
            rw [hfl]
            exact List.mem_cons_self _ _
          have hiny : y ∈ st.bookings.filter pred := by
            rw [hfl]
            exact List.mem_cons_of_mem _ (List.mem_cons_self _ _)
          have hxp : x.resourceId = r ∧ x.status = BookingStatus.approved ∧
              x.startAt ≤ d ∧ d ≤ x.endAt := by
            have := List.of_mem_filter hinx
            rw [hpred] at this
            simpa using this
          have hyp : y.resourceId = r ∧ y.status = BookingStatus.approved ∧
              y.startAt ≤ d ∧ d ≤ y.endAt := by
            have := List.of_mem_filter hiny
            rw [hpred] at this
            simpa using this
          exact hwf.noOverlap x (List.mem_of_mem_filter hinx) y (List.mem_of_mem_filter hiny)
            hxy hxp.2.1 hyp.2.1 (by rw [hxp.1, hyp.1])
            ⟨le_trans hxp.2.2.1 hyp.2.2.2, le_trans hyp.2.2.1 hxp.2.2.2⟩

/-- C1 witness: the capacity invariant instantiated at the concrete state in
which Alice's June 2025 booking has been approved. -/
theorem C1_witness :
    (st2.bookings.countP fun b =>
      decide (b.resourceId = "alder-lake-house" ∧ b.status = BookingStatus.approved ∧
        b.startAt ≤ 739413 ∧ 739413 ≤ b.endAt)) ≤ 1 :=
  C1_capacity_one_per_day st2 reachable_st2 "alder-lake-house" 739413
/-- C2 counterexample: in the reachable state `st2` the approved booking
`bA2` occupies 2025-06-11 on the default resource, yet creating Bob's
booking for exactly that day fails with a 409 conflict instead of
persisting a pending booking — creation is also blocked by approved
overlaps, contradicting the claim. -/
theorem C2_counterexample :
    (bA2 ∈ st2.bookings ∧ bA2.status = BookingStatus.approved ∧
      bA2.resourceId = pB.resourceId ∧
      bA2.startAt ≤ 739413 ∧ 739413 ≤ bA2.endAt ∧
      pB.startAt ≤ 739413 ∧ 739413 ≤ pB.endAt) ∧
    Reachable st2 ∧
    createBookingTx st2 pB =
      ⟨.error (.conflict "Booking overlaps an approved reservation"), st2⟩ :=
  ⟨by decide, reachable_st2, by decide⟩

/-- C2 amended: when some approved booking of the same resource overlaps the
requested range, create does NOT succeed — it fails with ConflictError and
persists nothing (approved bookings block creation as well as approval of
overlapping requests). -/
theorem C2_amended_create_rejected (st : Store) (p : BookingCreate)
    (hv : p.startAt ≤ p.endAt)
    (hc : ∃ b ∈ st.bookings, b.resourceId = p.resourceId ∧
      b.status = BookingStatus.approved ∧ p.startAt ≤ b.endAt ∧ b.startAt ≤ p.endAt) :
    createBookingTx st p =
      ⟨.error (.conflict "Booking overlaps an approved reservation"), st⟩ := by
  have hcf : hasConflict st.bookings p.resourceId p.startAt p.endAt none = true := by
    rw [hasConflict_iff]
    obtain ⟨b, hbm, h1, h2, h3, h4⟩ := hc
    exact ⟨b, hbm, h1, h2, h3, h4, by simp⟩
  obtain ⟨hub, _⟩ := upsertCustomer_bookings st p.email p.fullName
  simp only [createBookingTx, createBooking]
  rw [if_neg (show ¬p.endAt < p.startAt by omega)]
  rw [hub, hcf]
  simp

/-- C2 witness for the amended statement, at the concrete approved state. -/
theorem C2_amended_witness :
    createBookingTx st2 pB =
      ⟨.error (.conflict "Booking overlaps an approved reservation"), st2⟩ :=
  C2_amended_create_rejected st2 pB (by decide) ⟨bA2, by decide⟩

/-- C3: the conflict check reports a conflict iff some booking of the given
resource is approved, its inclusive range meets the queried range, and it is
not the excluded booking; non-approved statuses never conflict. -/
theorem C3_conflict_check_iff (bookings : List Booking) (resourceId : String)
    (startDate endDate : Nat) (excludeBookingId : Option Nat) :
    hasConflict bookings resourceId startDate endDate excludeBookingId = true ↔
      ∃ b ∈ bookings, b.resourceId = resourceId ∧ b.status = BookingStatus.approved ∧
        startDate ≤ b.endAt ∧ b.startAt ≤ endDate ∧
        ∀ i, excludeBookingId = some i → b.id ≠ i :=
  hasConflict_iff bookings resourceId startDate endDate excludeBookingId

/-- C4: whenever create, approve or decline fails with a 409 conflict, the
committed store is exactly the store before the call (the transaction is
rolled back, the customer upsert included). -/
theorem C4_conflict_error_atomic (st : Store) (p : BookingCreate) (bookingId : Nat)
    (d : BookingDecision) (m1 m2 m3 : String) :
    ((createBookingTx st p).1 = .error (.conflict m1) → (createBookingTx st p).2 = st) ∧
    ((approveBookingTx st bookingId d).1 = .error (.conflict m2) →
      (approveBookingTx st bookingId d).2 = st) ∧
    ((declineBookingTx st bookingId d).1 = .error (.conflict m3) →
      (declineBookingTx st bookingId d).2 = st) := by
  refine ⟨?_, ?_, ?_⟩
  · unfold createBookingTx
    rcases createBooking st p with e | bs <;> simp
  · unfold approveBookingTx
    rcases approveBooking st bookingId d with e | bs <;> simp
  · unfold declineBookingTx
    rcases declineBooking st bookingId d with e | bs <;> simp

/-- C4 witness: a conflicting create, an approve of a non-pending booking
and a decline of a non-pending booking, each leaving `st2` untouched. -/
theorem C4_witness :
    (createBookingTx st2 pB).2 = st2 ∧ (approveBookingTx st2 1 decOwner).2 = st2 ∧
    (declineBookingTx st2 1 decOwner).2 = st2 :=
  ⟨(C4_conflict_error_atomic st2 pB 1 decOwner "Booking overlaps an approved reservation"
      "Only pending bookings can be approved" "Only pending bookings can be declined").1
      (by decide),
   (C4_conflict_error_atomic st2 pB 1 decOwner "Booking overlaps an approved reservation"
      "Only pending bookings can be approved" "Only pending bookings can be declined").2.1
      (by decide),
   (C4_conflict_error_atomic st2 pB 1 decOwner "Booking overlaps an approved reservation"
      "Only pending bookings can be approved" "Only pending bookings can be declined").2.2
      (by decide)⟩

/-- C5: approving or declining any booking whose status is not pending
fails with a 409 conflict and leaves the committed store unchanged. -/
theorem C5_nonpending_decision_rejected (st : Store) (bookingId : Nat)
    (p : BookingDecision) (b : Booking)
    (hb : getBooking st bookingId = some b)
    (hs : b.status ≠ BookingStatus.pending) :
    approveBookingTx st bookingId p =
      ⟨.error (.conflict "Only pending bookings can be approved"), st⟩ ∧
    declineBookingTx st bookingId p =
      ⟨.error (.conflict "Only pending bookings can be declined"), st⟩ := by
  constructor
  · unfold approveBookingTx approveBooking
    simp [hb, hs]
  · unfold declineBookingTx declineBooking
    simp [hb, hs]

/-- C5 witness: re-deciding Alice's already-approved booking is rejected. -/
theorem C5_witness :
    approveBookingTx st2 1 decOwner =
      ⟨.error (.conflict "Only pending bookings can be approved"), st2⟩ ∧
    declineBookingTx st2 1 decOwner =
      ⟨.error (.conflict "Only pending bookings can be declined"), st2⟩ :=
  C5_nonpending_decision_rejected st2 1 decOwner bA2 (by decide) (by decide)

/-- C6: a create request whose start date is after its end date fails with
the validation error and commits nothing, and consequently every booking in
every reachable store satisfies startAt ≤ endAt. -/
theorem C6_date_order (st : Store) (p : BookingCreate) (h : Reachable st) :
    (p.endAt < p.startAt →
      createBookingTx st p =
        ⟨.error (.validation "End date must be on or after start date"), st⟩) ∧
    ∀ b ∈ st.bookings, b.startAt ≤ b.endAt := by
  refine ⟨?_, (wf_reachable h).dates⟩
  intro hv
  simp only [createBookingTx, createBooking, if_pos hv]

/-- C6 witness: the spec's 2025-07-05 .. 2025-07-01 request is rejected. -/
theorem C6_witness :
    createBookingTx emptyStore pBad =
      ⟨.error (.validation "End date must be on or after start date"), emptyStore⟩ :=
  (C6_date_order emptyStore pBad Reachable.empty).1 (by decide)

/-- C10: a non-empty decision note lands in the booking's notes with the
"Decision: " prefix and a joining newline when prior notes were non-empty,
but verbatim and unprefixed when prior notes were empty or null — for both
approve and decline. -/
theorem C10_decision_note_format (st : Store) (bookingId : Nat) (p : BookingDecision)
    (b b' : Booking) (st' : Store) (n : String)
    (hn : p.note = some n) (hne : n ≠ "")
    (hb : getBooking st bookingId = some b)
    (h : approveBookingTx st bookingId p = ⟨.ok b', st'⟩ ∨
         declineBookingTx st bookingId p = ⟨.ok b', st'⟩) :
    ((b.notes = none ∨ b.notes = some "") → b'.notes = some n) ∧
    (∀ s, b.notes = some s → s ≠ "" →
      b'.notes = some (s ++ "\n" ++ "Decision: " ++ n)) := by
  have hnotes : b'.notes = applyDecisionNote b.notes p.note := by
    rcases h with h | h
    · obtain ⟨b0, hg0, _, _, hb0, _⟩ := approveBooking_ok (approveBookingTx_ok h)
      rw [hb] at hg0
      injection hg0 with hg0
      subst hg0
      rw [hb0]
    · obtain ⟨b0, hg0, _, hb0, _⟩ := declineBooking_ok (declineBookingTx_ok h)
      rw [hb] at hg0
      injection hg0 with hg0
      subst hg0
      rw [hb0]
  rw [hn] at hnotes
  constructor
  · rintro (ho | ho) <;> rw [hnotes, ho] <;> simp [applyDecisionNote, hne]
  · intro s hsome hse
    rw [hnotes, hsome]
    simp [applyDecisionNote, hne, hse]

/-- C10 witness: approving Alice's noteless pending booking with the note
`"ok"` stores exactly `some "ok"`. -/
theorem C10_witness : bA3.notes = some "ok" :=
  (C10_decision_note_format st1 1 decNote bA bA3 st3 "ok" rfl (by decide) (by decide)
    (Or.inl (by decide))).1 (Or.inl rfl)
theorem daysInMonth_bounds (y m : Nat) : 28 ≤ daysInMonth y m ∧ daysInMonth y m ≤ 31 := by
  unfold daysInMonth
  split
  · split <;> omega
  · split <;> omega

theorem toOrdinal_shift (y m d : Nat) : toOrdinal y m d = toOrdinal y m 1 + d - 1 := by
  unfold toOrdinal
  omega

theorem toOrdinal_pos (y m d : Nat) (hd : 1 ≤ d) : 1 ≤ toOrdinal y m d := by
  unfold toOrdinal
  omega

theorem chunk7Fuel_flatten (fuel : Nat) (l : List α) (h : l.length ≤ fuel) :
    (chunk7Fuel fuel l).flatten = l := by
  induction fuel generalizing l with
  | zero =>
      have hnil : l = [] := List.eq_nil_of_length_eq_zero (by omega)
      subst hnil
      rfl
  | succ k ih =>
      cases l with
      | nil => rfl
      | cons x xs =>
          rw [chunk7Fuel, List.flatten_cons, ih]
          · exact List.take_append_drop 7 (x :: xs)
          · rw [List.length_drop 7]
            simp only [List.length_cons] at h ⊢
            omega

theorem chunk7_flatten (l : List α) : (chunk7 l).flatten = l :=
  chunk7Fuel_flatten l.length l le_rfl

theorem chunk7Fuel_row_length (fuel : Nat) {l : List α} {n : Nat}
    (hf : l.length ≤ fuel) (h : l.length = 7 * n) :
    ∀ w ∈ chunk7Fuel fuel l, w.length = 7 := by
  induction fuel generalizing l n with
  | zero =>
      have hnil : l = [] := List.eq_nil_of_length_eq_zero (by omega)
      subst hnil
      intro w hw
      cases hw
  | succ k ih =>
      intro w hw
      cases l with
      | nil => cases hw
      | cons x xs =>
          rw [chunk7Fuel] at hw
          rcases List.mem_cons.1 hw with rfl | hw
          · rw [List.length_take 7]
            simp only [List.length_cons] at h ⊢
            omega
          · refine ih (l := (x :: xs).drop 7) (n := n - 1) ?_ ?_ w hw
            · rw [List.length_drop 7]
              simp only [List.length_cons] at hf ⊢
              omega
            · rw [List.length_drop 7]
              simp only [List.length_cons] at h ⊢
              omega

theorem chunk7_row_length {l : List α} {n : Nat} (h : l.length = 7 * n) :
    ∀ w ∈ chunk7 l, w.length = 7 :=
  chunk7Fuel_row_length l.length le_rfl h

theorem gridLen_mod7 (y m : Nat) : gridLen y m % 7 = 0 := by
  unfold gridLen
  omega

theorem gridLen_ge (y m : Nat) : 28 ≤ gridLen y m := by
  have := daysInMonth_bounds y m
  unfold gridLen
  omega
/-- C7: for every anchor month the grid is whole 7-day rows of consecutive
dates, starting at the Monday on or before the 1st, ending at the Sunday on
or after the month's last day, and containing every day of the month. -/
theorem C7_calendar_grid (y m : Nat) (hy : 1 ≤ y) (hm1 : 1 ≤ m) (hm2 : m ≤ 12) :
    (∀ w ∈ monthdatescalendar y m, w.length = 7) ∧
    (monthdatescalendar y m).flatten = List.range' (gridStartOrd y m) (gridLen y m) ∧
    weekdayOf (gridStartOrd y m) = 0 ∧
    gridStartOrd y m ≤ toOrdinal y m 1 ∧ toOrdinal y m 1 < gridStartOrd y m + 7 ∧
    weekdayOf (gridEndOrd y m) = 6 ∧
    toOrdinal y m (daysInMonth y m) ≤ gridEndOrd y m ∧
    gridEndOrd y m < toOrdinal y m (daysInMonth y m) + 7 ∧
    ∀ d, 1 ≤ d → d ≤ daysInMonth y m →
      toOrdinal y m d ∈ (monthdatescalendar y m).flatten := by
  have hf1 : 1 ≤ toOrdinal y m 1 := toOrdinal_pos y m 1 le_rfl
  have hdm := daysInMonth_bounds y m
  have hmod := gridLen_mod7 y m
  have hge := gridLen_ge y m
  have hflat : (monthdatescalendar y m).flatten =
      List.range' (gridStartOrd y m) (gridLen y m) := by
    unfold monthdatescalendar
    exact chunk7_flatten _
  refine ⟨?_, hflat, ?_, ?_, ?_, ?_, ?_, ?_, ?_⟩
  · unfold monthdatescalendar
    refine chunk7_row_length (n := gridLen y m / 7) ?_
    rw [List.length_range']
    omega
  · unfold gridStartOrd weekdayOf
    omega
  · unfold gridStartOrd weekdayOf
    omega
  · unfold gridStartOrd weekdayOf
    omega
  · unfold gridEndOrd gridStartOrd gridLen weekdayOf
    omega
  · rw [toOrdinal_shift y m (daysInMonth y m)]
    unfold gridEndOrd gridStartOrd gridLen weekdayOf
    omega
  · rw [toOrdinal_shift y m (daysInMonth y m)]
    unfold gridEndOrd gridStartOrd gridLen weekdayOf
    omega
  · intro d hd1 hd2
    rw [hflat, List.mem_range'_1, toOrdinal_shift y m d]
    unfold gridStartOrd gridLen weekdayOf
    omega

/-- C7 witness: June 2025 — the last day of the month sits in the grid. -/
theorem C7_witness :
    toOrdinal 2025 6 30 ∈ (monthdatescalendar 2025 6).flatten :=
  (C7_calendar_grid 2025 6 (by decide) (by decide) (by decide)).2.2.2.2.2.2.2.2 30
    (by decide) (by decide)

/-! ## Claims about the calendar aggregates -/

theorem countP_bookingsOnDay (bookings : List Booking) (gs ge day : Nat)
    (stt : BookingStatus) :
    ((bookingsOnDay bookings gs ge day).countP fun b => decide (b.status = stt)) =
      bookings.countP fun b => decide (b.status = stt ∧
        max b.startAt gs ≤ day ∧ day ≤ min b.endAt ge) := by
  unfold bookingsOnDay
  rw [List.countP_filter]
  refine List.countP_congr ?_
  intro b _
  simp

theorem find?_range'_eq_some (a : Nat) (p : Nat → Bool) (d : Nat) :
    ∀ n, ((List.range' a n).find? p = some d ↔
      (a ≤ d ∧ d < a + n ∧ p d = true ∧ ∀ e, a ≤ e → e < d → ¬p e = true)) := by
  suffices h : ∀ n a, ((List.range' a n).find? p = some d ↔
      (a ≤ d ∧ d < a + n ∧ p d = true ∧ ∀ e, a ≤ e → e < d → ¬p e = true)) by
    intro n
    exact h n a
  intro n
  induction n with
  | zero =>
      intro a
      simp only [List.range'_zero, List.find?_nil]
      constructor
      · intro h
        cases h
      · rintro ⟨h1, h2, _, _⟩
        omega
  | succ k ih =>
      intro a
      rw [List.range'_succ, List.find?_cons]
      by_cases hpa : p a = true
      · rw [hpa]
        simp only [cond_true]
        constructor
        · intro h
          injection h with h
          subst h
          exact ⟨le_rfl, by omega, hpa, fun e he1 he2 => absurd he1 (by omega)⟩
        · rintro ⟨h1, h2, h3, h4⟩
          rcases Nat.eq_or_lt_of_le h1 with rfl | hlt
          · rfl
          · exact absurd hpa (h4 a le_rfl hlt)
      · rw [Bool.not_eq_true] at hpa
        rw [hpa]
        simp only [cond_false]
        rw [ih (a + 1)]
        constructor
        · rintro ⟨h1, h2, h3, h4⟩
          refine ⟨by omega, by omega, h3, fun e he1 he2 => ?_⟩
          rcases Nat.eq_or_lt_of_le he1 with rfl | hlt
          · rw [hpa]
            simp
          · exact h4 e (by omega) he2
        · rintro ⟨h1, h2, h3, h4⟩
          have hda : d ≠ a := by
            intro hh
            subst hh
            rw [hpa] at h3
            cases h3
          exact ⟨by omega, by omega, h3, fun e he1 he2 => h4 e (by omega) he2⟩

theorem find?_range'_eq_none (a n : Nat) (p : Nat → Bool) :
    ((List.range' a n).find? p = none ↔ ∀ e, a ≤ e → e < a + n → ¬p e = true) := by
  rw [List.find?_eq_none]
  constructor
  · intro h e h1 h2
    exact h e (by rw [List.mem_range'_1]; omega)
  · intro h x hx
    rw [List.mem_range'_1] at hx
    exact h x hx.1 hx.2
/-- C8: every grid cell's aggregates count exactly the approved/pending
bookings whose grid-clipped span contains that cell's day, with
`remainingSlots = max 0 (1 - approvedCount)` (never negative) and
`isFull ↔ approvedCount ≥ 1`; and every day-detail result counts its
bookings the same way. -/
theorem C8_day_aggregates (y m : Nat) (bookings : List Booking)
    (selectedDate : Option Nat) (today day : Nat) (bl : List Booking) :
    (∀ week ∈ (buildCalendar y m bookings selectedDate today).weeks, ∀ cell ∈ week,
      cell.pendingCount = (bookings.countP fun b =>
        decide (b.status = BookingStatus.pending ∧
          max b.startAt (gridStartOrd y m) ≤ cell.day ∧
          cell.day ≤ min b.endAt (gridEndOrd y m))) ∧
      cell.remainingSlots = max 0 (1 - ((bookings.countP fun b =>
        decide (b.status = BookingStatus.approved ∧
          max b.startAt (gridStartOrd y m) ≤ cell.day ∧
          cell.day ≤ min b.endAt (gridEndOrd y m))) : Int)) ∧
      0 ≤ cell.remainingSlots ∧
      (cell.isFull = true ↔ 1 ≤ (bookings.countP fun b =>
        decide (b.status = BookingStatus.approved ∧
          max b.startAt (gridStartOrd y m) ≤ cell.day ∧
          cell.day ≤ min b.endAt (gridEndOrd y m))))) ∧
    ((buildDayDetail day bl).confirmedCount =
        (bl.countP fun b => decide (b.status = BookingStatus.approved)) ∧
      (buildDayDetail day bl).pendingCount =
        (bl.countP fun b => decide (b.status = BookingStatus.pending)) ∧
      (buildDayDetail day bl).remainingSlots =
        max 0 (1 - ((bl.countP fun b => decide (b.status = BookingStatus.approved)) : Int)) ∧
      0 ≤ (buildDayDetail day bl).remainingSlots) := by
  constructor
  · intro week hweek cell hcell
    have hwk : (buildCalendar y m bookings selectedDate today).weeks =
        (monthdatescalendar y m).map fun w =>
          w.map (buildCalendarCell y m bookings today) := rfl
    rw [hwk] at hweek
    obtain ⟨w0, hw0, rfl⟩ := List.mem_map.1 hweek
    obtain ⟨d, hd, rfl⟩ := List.mem_map.1 hcell
    rw [show (buildCalendarCell y m bookings today d).day = d from rfl]
    refine ⟨?_, ?_, ?_, ?_⟩
    · show pendingCountOn bookings (gridStartOrd y m) (gridEndOrd y m) d = _
      unfold pendingCountOn
      rw [countP_bookingsOnDay]
    · show max 0 (CAPACITY_PER_DAY -
        (approvedCountOn bookings (gridStartOrd y m) (gridEndOrd y m) d : Int)) = _
      unfold approvedCountOn CAPACITY_PER_DAY
      rw [countP_bookingsOnDay]
    · exact le_max_left 0 _
    · show decide ((approvedCountOn bookings (gridStartOrd y m) (gridEndOrd y m) d : Int) ≥
        CAPACITY_PER_DAY) = true ↔ _
      unfold approvedCountOn CAPACITY_PER_DAY
      rw [countP_bookingsOnDay, decide_eq_true_iff]
      constructor <;> intro h <;> omega
  · refine ⟨rfl, rfl, rfl, ?_⟩
    exact le_max_left 0 _

/-- C9: the next-available label designates the first day from
`max(today, gridStart)` through `gridEnd` whose approved count is below
capacity, and is absent exactly when no such day exists in that range (in
particular whenever `today > gridEnd`). -/
theorem C9_next_available (y m : Nat) (bookings : List Booking)
    (selectedDate : Option Nat) (today : Nat) :
    (∀ d, (buildCalendar y m bookings selectedDate today).nextAvailable = some d ↔
      (max today (gridStartOrd y m) ≤ d ∧ d ≤ gridEndOrd y m ∧
        approvedCountOn bookings (gridStartOrd y m) (gridEndOrd y m) d < 1 ∧
        ∀ e, max today (gridStartOrd y m) ≤ e → e < d →
          1 ≤ approvedCountOn bookings (gridStartOrd y m) (gridEndOrd y m) e)) ∧
    ((buildCalendar y m bookings selectedDate today).nextAvailable = none ↔
      (∀ d, max today (gridStartOrd y m) ≤ d → d ≤ gridEndOrd y m →
        1 ≤ approvedCountOn bookings (gridStartOrd y m) (gridEndOrd y m) d)) ∧
    (gridEndOrd y m < today →
      (buildCalendar y m bookings selectedDate today).nextAvailable = none) := by
  have hna : (buildCalendar y m bookings selectedDate today).nextAvailable =
      nextAvailableDay y m bookings today := rfl
  have hpred : (fun d => decide
        ((approvedCountOn bookings (gridStartOrd y m) (gridEndOrd y m) d : Int) <
          CAPACITY_PER_DAY)) =
      fun d => decide
        (approvedCountOn bookings (gridStartOrd y m) (gridEndOrd y m) d < 1) := by
    funext x
    rw [decide_eq_decide]
    unfold CAPACITY_PER_DAY
    constructor <;> intro h <;> omega
  rw [hna]
  unfold nextAvailableDay daterangeList
  rw [hpred]
  refine ⟨?_, ?_, ?_⟩
  · intro d
    rw [find?_range'_eq_some]
    constructor
    · rintro ⟨h1, h2, h3, h4⟩
      simp only [decide_eq_true_iff] at h3
      refine ⟨h1, by omega, h3, fun e he1 he2 => ?_⟩
      have he := h4 e he1 he2
      simp only [decide_eq_true_iff] at he
      omega
    · rintro ⟨h1, h2, h3, h4⟩
      refine ⟨h1, by omega, by simp only [decide_eq_true_iff]; exact h3,
        fun e he1 he2 => ?_⟩
      have he := h4 e he1 he2
      simp only [decide_eq_true_iff]
      omega
  · rw [find?_range'_eq_none]
    constructor
    · intro h d h1 h2
      have hd := h d h1 (by omega)
      simp only [decide_eq_true_iff] at hd
      omega
    · intro h e h1 h2
      simp only [decide_eq_true_iff]
      have hd := h e h1 (by omega)
      omega
  · intro htoday
    rw [find?_range'_eq_none]
    intro e h1 h2
    omega
/-- C8 witness: at June 2025 with Alice's approved booking, the cell for
2025-06-11 has a non-negative remaining-slot count. -/
theorem C8_witness :
    0 ≤ (buildCalendarCell 2025 6 [bA2] 739412 739413).remainingSlots :=
  ((C8_day_aggregates 2025 6 [bA2] none 739412 739413 [bA2]).1
    (List.map (buildCalendarCell 2025 6 [bA2] 739412)
      [739411, 739412, 739413, 739414, 739415, 739416, 739417])
    (by decide)
    (buildCalendarCell 2025 6 [bA2] 739412 739413)
    (by decide)).2.2.1

/-- C9 witness: when today is past the visible grid the label is absent. -/
theorem C9_witness :
    (buildCalendar 2025 6 [] none 739500).nextAvailable = none :=
  (C9_next_available 2025 6 [] none 739500).2.2 (by decide)
